import Mathlib

/-!
Shallow embedding of the account-summation operation of the
`ts-mockito-vs-jest` repository.

Two revisions of `AccountOperationImpl.sumAccounts` appear in the sources:

* the final revision (master account, logger, retry on network errors),
  shown in the repository narrative and exercised by the test suites
  (`test/ts-mockito/AccountOperation.spec.ts`,
  `test/jest/AccountOperation.spec.ts`):

  ```ts
  private getAccountWithRetry(id: string): Account {
      while(true) {
          try {
              return this._store.getAccountById(id);
          } catch (err) {
              if (err.message !== 'NetworkError') { throw err; }
          }
      }
  }

  sumAccounts(accountIds: string[]): number {
      let sum = 0;
      for (let id of [ 'master', ...accountIds ]) {
          let account = this.getAccountWithRetry(id);
          this._logger.logAccount(id, 'master');
          if (account.balance > 0) { sum += account.balance; }
      }
      return sum;
  }
  ```

* the first revision, the one in the named file
  `src/impl/AccountOperationImpl.ts` (plain fold, no master account,
  no logger, no retry):

  ```ts
  sumAccounts(accountIds: string[]): number {
      let sum = 0;
      for (let id of accountIds ) {
          let account = this._store.getAccountById(id);
          sum += account.balance;
      }
      return sum;
  }
  ```

The store is modelled as an oracle mapping an account id and the number
of `getAccountById(id)` calls already made for that id to an outcome
(this is exactly how the ts-mockito and jest test doubles sequence
consecutive answers for repeated calls with the same argument).  A run
produces a trace of observable events — one `fetch` event per store
call, one `log` event per `logAccount` call (with the arguments in the
order the call site passes them), and one `accum` event per executed
`sum += account.balance` — together with the result: the returned sum,
or the message of the propagated error.  The unbounded `while(true)`
retry loop is embedded with explicit fuel; a run that exhausts its fuel
is `none`, and divergence is expressed as being `none` for every fuel.
-/

/-- The `Account` record from `src/AccountStore.ts`: an id and a (signed) balance. -/
structure Account where
  id : String
  balance : Int
deriving DecidableEq

/-- Outcome of one `AccountStore.getAccountById` call: either an account
or a thrown error carrying its message string. -/
inductive FetchOutcome where
  | ok : Account → FetchOutcome
  | err : String → FetchOutcome
deriving DecidableEq

/-- The store oracle: `store id n` is the outcome of the `(n+1)`-st call
to `getAccountById(id)` within one run. -/
def Store : Type := String → Nat → FetchOutcome

/-- Observable events of a run: a store call and its outcome, a
`logAccount` call with its two argument strings in call-site order, and
an executed balance accumulation. -/
inductive Event where
  | fetch : String → FetchOutcome → Event
  | log : String → String → Event
  | accum : String → Int → Event
deriving DecidableEq

/-- The fixed master account id prepended by the final revision. -/
def masterId : String := "master"

/-- Per-id call counters, updated after a retry loop finishes. -/
def bump (counts : String → Nat) (id : String) (c : Nat) : String → Nat :=
  fun j => if j = id then c else counts j

/-- Embedding of `getAccountWithRetry` (final revision): call the store;
on an error whose message is exactly `NetworkError` loop, otherwise
rethrow.  `cnt` is the number of calls already made for `id`; the result
carries the emitted fetch events, the new call count and the outcome.
`none` means the fuel ran out inside the `while(true)` loop. -/
def getAccountWithRetry (store : Store) (id : String) (cnt : Nat) :
    Nat → Option (List Event × Nat × Except String Account)
  | 0 => none
  | fuel + 1 =>
    match store id cnt with
    | FetchOutcome.ok a =>
        some ([Event.fetch id (FetchOutcome.ok a)], cnt + 1, Except.ok a)
    | FetchOutcome.err m =>
        if m = "NetworkError" then
          match getAccountWithRetry store id (cnt + 1) fuel with
          | none => none
          | some (evs, c, r) =>
              some (Event.fetch id (FetchOutcome.err m) :: evs, c, r)
        else
          some ([Event.fetch id (FetchOutcome.err m)], cnt + 1, Except.error m)

/-- The `for` loop of the final `sumAccounts`: fetch with retry, log
`logAccount(id, 'master')`, accumulate strictly positive balances. -/
def sumLoop (store : Store) (fuel : Nat) :
    (String → Nat) → Int → List String → Option (List Event × Except String Int)
  | _, sum, [] => some ([], Except.ok sum)
  | counts, sum, id :: rest =>
    match getAccountWithRetry store id (counts id) fuel with
    | none => none
    | some (evs, _, Except.error m) => some (evs, Except.error m)
    | some (evs, c, Except.ok a) =>
        match sumLoop store fuel (bump counts id c)
            (if 0 < a.balance then sum + a.balance else sum) rest with
        | none => none
        | some (evs2, r) =>
            some ((evs ++ Event.log id masterId ::
              (if 0 < a.balance then [Event.accum id a.balance] else [])) ++ evs2, r)

/-- Embedding of the final `sumAccounts`: iterate over
`['master', ...accountIds]` starting from sum `0` and fresh counters. -/
def sumAccounts (store : Store) (accountIds : List String) (fuel : Nat) :
    Option (List Event × Except String Int) :=
  sumLoop store fuel (fun _ => 0) 0 (masterId :: accountIds)

/-- Result projection of a run of the final revision. -/
def sumResult (store : Store) (accountIds : List String) (fuel : Nat) :
    Option (Except String Int) :=
  Option.map (fun p => p.2) (sumAccounts store accountIds fuel)

/-- Is an event a `logAccount` call? -/
def isLogEv : Event → Bool
  | Event.log _ _ => true
  | _ => false

/-- The logged-access subtrace of a run of the final revision. -/
def logTrace (store : Store) (accountIds : List String) (fuel : Nat) :
    Option (List Event) :=
  Option.map (fun p => p.1.filter isLogEv) (sumAccounts store accountIds fuel)

/-- Loop of the first-revision `sumAccounts` in
`src/impl/AccountOperationImpl.ts`: one store call per id, unconditional
accumulation, errors propagate at once. -/
def sumAccountsPlainLoop (store : Store) :
    (String → Nat) → Int → List String → List Event × Except String Int
  | _, sum, [] => ([], Except.ok sum)
  | counts, sum, id :: rest =>
    match store id (counts id) with
    | FetchOutcome.err m => ([Event.fetch id (FetchOutcome.err m)], Except.error m)
    | FetchOutcome.ok a =>
        match sumAccountsPlainLoop store (bump counts id (counts id + 1))
            (sum + a.balance) rest with
        | (evs, r) => (Event.fetch id (FetchOutcome.ok a) :: evs, r)

/-- Embedding of the first-revision `sumAccounts` from the named file
`src/impl/AccountOperationImpl.ts`. -/
def sumAccountsPlain (store : Store) (accountIds : List String) :
    List Event × Except String Int :=
  sumAccountsPlainLoop store (fun _ => 0) 0 accountIds

/-- A store on which every call succeeds, returning for `id` the account
with balance `bal id`. -/
def okStore (bal : String → Int) : Store :=
  fun id _ => FetchOutcome.ok (Account.mk id (bal id))

/-- Sum of the strictly positive elements of a list of balances. -/
def posSum (l : List Int) : Int :=
  (l.filter (fun b => 0 < b)).sum

/-- The events emitted for one id when its fetch succeeds at once. -/
def blockOk (bal : String → Int) (id : String) : List Event :=
  Event.fetch id (FetchOutcome.ok (Account.mk id (bal id))) ::
    Event.log id masterId ::
    (if 0 < bal id then [Event.accum id (bal id)] else [])

/-- A run of `k` consecutive transient-failure fetch events for `id`. -/
def transEvs (id : String) (k : Nat) : List Event :=
  List.replicate k (Event.fetch id (FetchOutcome.err "NetworkError"))

/-- Is an event allowed right after `prev`?  A `log` event must follow
a successful fetch of the same id; anything else is unrestricted. -/
def okBefore (prev : Option Event) (e : Event) : Bool :=
  match e with
  | Event.log x _ =>
    match prev with
    | some (Event.fetch y (FetchOutcome.ok _)) => y == x
    | _ => false
  | _ => true

/-- Every `log` event of the trace comes right after a successful fetch
of the logged id (`prev` is the event preceding the trace, if any). -/
def logsAfterFetch : Option Event → List Event → Bool
  | _, [] => true
  | prev, e :: rest => okBefore prev e && logsAfterFetch (some e) rest

/-- Last element of a list, or `prev` when the list is empty. -/
def lastO (prev : Option Event) : List Event → Option Event
  | [] => prev
  | e :: rest => lastO (some e) rest

/-- Is a fetch outcome the transient (retried) kind?  Mirrors the test
of `err.message !== 'NetworkError'` in `getAccountWithRetry`. -/
def isTransient : FetchOutcome → Bool
  | FetchOutcome.err m => m == "NetworkError"
  | FetchOutcome.ok _ => false

/-- A store that permanently fails for the id `bad` (message
`OtherError`, as in the `should fail on other errors` test) and returns
balance `1` for every other id. -/
def storeFailAt (bad : String) : Store := fun id _ =>
  if id = bad then FetchOutcome.err "OtherError"
  else FetchOutcome.ok (Account.mk id 1)

/-- The store `okStore bal` with a single transient fault injected at the
`(k+1)`-st call for the id `fid`. -/
def faultStore (bal : String → Int) (fid : String) (k : Nat) : Store :=
  fun id n =>
    if id = fid ∧ n = k then FetchOutcome.err "NetworkError"
    else FetchOutcome.ok (Account.mk id (bal id))

/-- A store under an everlasting transient fault: every call throws
`NetworkError`. -/
def nwStore : Store := fun _ _ => FetchOutcome.err "NetworkError"

/-- The balance assignment of the test suites' base scenario: master has
balance `0`, every other account balance `1`. -/
def balDemo : String → Int := fun id => if id = masterId then 0 else 1

theorem posSum_cons (b : Int) (l : List Int) :
    posSum (b :: l) = (if 0 < b then b else 0) + posSum l := by
  by_cases h : 0 < b <;> simp [posSum, List.filter_cons, h]

theorem retry_okStore (bal : String → Int) (id : String) (cnt fuel : Nat) :
    getAccountWithRetry (okStore bal) id cnt (fuel + 1)
      = some ([Event.fetch id (FetchOutcome.ok (Account.mk id (bal id)))],
          cnt + 1, Except.ok (Account.mk id (bal id))) := rfl

theorem sumLoop_okStore (bal : String → Int) (fuel : Nat) :
    ∀ (ids : List String) (counts : String → Nat) (sum : Int),
      sumLoop (okStore bal) (fuel + 1) counts sum ids
        = some (ids.flatMap (blockOk bal),
            Except.ok (sum + posSum (ids.map bal))) := by
  intro ids
  induction ids with
  | nil => intro counts sum; simp [sumLoop, posSum]
  | cons id rest ih =>
    intro counts sum
    rw [sumLoop, retry_okStore]
    dsimp only
    rw [ih]
    dsimp only
    simp only [List.flatMap_cons, List.map_cons, posSum_cons, blockOk]
    by_cases h : 0 < bal id
    · simp [h, List.append_assoc]
      ring_nf
    · simp [h, List.append_assoc]

theorem filter_blockOk (bal : String → Int) (id : String) :
    (blockOk bal id).filter isLogEv = [Event.log id masterId] := by
  by_cases h : 0 < bal id <;> simp [blockOk, isLogEv, h]

theorem logs_flatMap (bal : String → Int) :
    ∀ (ids : List String),
      (ids.flatMap (blockOk bal)).filter isLogEv
        = ids.map (fun id => Event.log id masterId) := by
  intro ids
  induction ids with
  | nil => simp
  | cons id rest ih =>
    simp [List.filter_append, filter_blockOk, ih]

theorem count_blockOk_log (bal : String → Int) (x id : String) :
    (blockOk bal id).count (Event.log x masterId) = if id = x then 1 else 0 := by
  by_cases hx : id = x
  · subst hx
    by_cases h : 0 < bal id <;> simp [blockOk, List.count_cons, h]
  · by_cases h : 0 < bal id <;>
      simp [blockOk, List.count_cons, h, hx, Ne.symm hx]

theorem count_blockOk_fetch (bal : String → Int) (x id : String) :
    (blockOk bal id).count
        (Event.fetch x (FetchOutcome.ok (Account.mk x (bal x))))
      = if id = x then 1 else 0 := by
  by_cases hx : id = x
  · subst hx
    by_cases h : 0 < bal id <;> simp [blockOk, List.count_cons, h]
  · by_cases h : 0 < bal id <;>
      simp [blockOk, List.count_cons, h, hx, Ne.symm hx]

theorem count_blockOk_accum (bal : String → Int) (x id : String) :
    (blockOk bal id).count (Event.accum x (bal x))
      = if id = x ∧ 0 < bal x then 1 else 0 := by
  by_cases hx : id = x
  · subst hx
    by_cases h : 0 < bal id <;> simp [blockOk, List.count_cons, h]
  · by_cases h : 0 < bal id <;>
      simp [blockOk, List.count_cons, h, hx]

theorem count_log_flatMap (bal : String → Int) (x : String) :
    ∀ (ids : List String),
      (ids.flatMap (blockOk bal)).count (Event.log x masterId) = ids.count x := by
  intro ids
  induction ids with
  | nil => simp
  | cons id rest ih =>
    by_cases hx : id = x <;>
      simp [List.count_cons, List.count_append, count_blockOk_log, ih, hx,
        Nat.add_comm]

theorem count_fetch_flatMap (bal : String → Int) (x : String) :
    ∀ (ids : List String),
      (ids.flatMap (blockOk bal)).count
          (Event.fetch x (FetchOutcome.ok (Account.mk x (bal x))))
        = ids.count x := by
  intro ids
  induction ids with
  | nil => simp
  | cons id rest ih =>
    by_cases hx : id = x <;>
      simp [List.count_cons, List.count_append, count_blockOk_fetch, ih, hx,
        Nat.add_comm]

theorem count_accum_flatMap (bal : String → Int) (x : String) :
    ∀ (ids : List String),
      (ids.flatMap (blockOk bal)).count (Event.accum x (bal x))
        = if 0 < bal x then ids.count x else 0 := by
  intro ids
  induction ids with
  | nil => simp
  | cons id rest ih =>
    by_cases hx : id = x
    · by_cases hb : 0 < bal x <;>
        simp [List.count_cons, List.count_append, count_blockOk_accum, ih, hx, hb,
          Nat.add_comm]
    · by_cases hb : 0 < bal x <;>
        simp [List.count_cons, List.count_append, count_blockOk_accum, ih, hx, hb,
          Nat.add_comm]

/-- C1: for every list of account ids on a store where every fetch of
the effective sequence `['master'] ++ ids` succeeds, `sumAccounts`
returns the sum of exactly those fetched balances that are strictly
greater than `0`; zero and negative balances (including for the master
account) contribute nothing. -/
theorem C1_sum_of_positive_balances (bal : String → Int) (ids : List String)
    (fuel : Nat) :
    sumResult (okStore bal) ids (fuel + 1)
      = some (Except.ok (posSum ((masterId :: ids).map bal))) := by
  rw [sumResult, sumAccounts, sumLoop_okStore]
  simp

/-- C2: for every caller-supplied list (including the empty list), a
succeeding run of `sumAccounts` processes the effective sequence
`masterId :: ids` strictly in that order — the constant id `master` is
fetched first and appears in both the logged-access events and the
balance accumulation — and the fetch, log and accumulate side effects
appear in the trace in exactly this order, one block per id. -/
theorem C2_effective_sequence_order (bal : String → Int) (ids : List String)
    (fuel : Nat) :
    sumAccounts (okStore bal) ids (fuel + 1)
      = some ((masterId :: ids).flatMap (blockOk bal),
          Except.ok (posSum ((masterId :: ids).map bal))) := by
  rw [sumAccounts, sumLoop_okStore]
  simp

/-- C4 (counterexample): in the base scenario `['a','b','c']` with all
balances `1` and master balance `0`, the logger calls are
`('master','master'), ('a','master'), ('b','master'), ('c','master')` —
not `('master','master'), ('master','a'), ('master','b'),
('master','c')` as the claim states. -/
theorem C4_cex_log_argument_order :
    logTrace (okStore balDemo) ["a", "b", "c"] 1
        = some [Event.log "master" "master", Event.log "a" "master",
            Event.log "b" "master", Event.log "c" "master"]
      ∧ ¬ (logTrace (okStore balDemo) ["a", "b", "c"] 1
        = some [Event.log "master" "master", Event.log "master" "a",
            Event.log "master" "b", Event.log "master" "c"]) := by
  constructor
  · rfl
  · decide

/-- C4 (amended): in every run in which all fetches succeed, the
logger's `logAccount` operation is invoked exactly once per id of the
effective sequence (including master), in processing order, each time
with the argument pair `(id, masterId)` — for `['a','b','c']` the calls
are `('master','master'), ('a','master'), ('b','master'),
('c','master')` in that order. -/
theorem C4_logged_once_per_id_in_order (bal : String → Int)
    (ids : List String) (fuel : Nat) :
    logTrace (okStore bal) ids (fuel + 1)
      = some ((masterId :: ids).map (fun id => Event.log id masterId)) := by
  rw [logTrace, sumAccounts, sumLoop_okStore]
  simp [logs_flatMap, filter_blockOk]

/-- C9: duplicate ids are processed independently, with no
deduplication: in a succeeding run each occurrence of an id `x` in the
effective sequence is fetched once and logged once, its balance is
accumulated once per occurrence when strictly positive, and the sum
counts `bal x` once per occurrence. -/
theorem C9_duplicates_processed_per_occurrence (bal : String → Int)
    (ids : List String) (fuel : Nat) (x : String) :
    ∃ tr,
      sumAccounts (okStore bal) ids (fuel + 1)
          = some (tr, Except.ok (posSum ((masterId :: ids).map bal)))
        ∧ tr.count (Event.fetch x (FetchOutcome.ok (Account.mk x (bal x))))
            = (masterId :: ids).count x
        ∧ tr.count (Event.log x masterId) = (masterId :: ids).count x
        ∧ tr.count (Event.accum x (bal x))
            = (if 0 < bal x then (masterId :: ids).count x else 0) := by
  refine ⟨(masterId :: ids).flatMap (blockOk bal), ?_, ?_, ?_, ?_⟩
  · rw [sumAccounts, sumLoop_okStore]; simp
  · exact count_fetch_flatMap bal x (masterId :: ids)
  · exact count_log_flatMap bal x (masterId :: ids)
  · exact count_accum_flatMap bal x (masterId :: ids)

theorem retry_unfold_ok (store : Store) (id : String) (cnt fuel : Nat)
    (a : Account) (hs : store id cnt = FetchOutcome.ok a) :
    getAccountWithRetry store id cnt (fuel + 1)
      = some ([Event.fetch id (FetchOutcome.ok a)], cnt + 1, Except.ok a) := by
  rw [getAccountWithRetry, hs]

theorem retry_unfold_nw (store : Store) (id : String) (cnt fuel : Nat)
    (hs : store id cnt = FetchOutcome.err "NetworkError") :
    getAccountWithRetry store id cnt (fuel + 1)
      = match getAccountWithRetry store id (cnt + 1) fuel with
        | none => none
        | some (evs, c, r) =>
            some (Event.fetch id (FetchOutcome.err "NetworkError") :: evs, c, r) := by
  rw [getAccountWithRetry, hs]
  simp

theorem retry_unfold_perm (store : Store) (id : String) (cnt fuel : Nat)
    (m : String) (hs : store id cnt = FetchOutcome.err m)
    (hm : ¬(m = "NetworkError")) :
    getAccountWithRetry store id cnt (fuel + 1)
      = some ([Event.fetch id (FetchOutcome.err m)], cnt + 1, Except.error m) := by
  rw [getAccountWithRetry, hs]
  simp [hm]

theorem retry_shape (store : Store) (id : String) :
    ∀ (fuel cnt : Nat) (evs : List Event) (c : Nat) (r : Except String Account),
      getAccountWithRetry store id cnt fuel = some (evs, c, r) →
      ∃ k, c = cnt + k + 1 ∧
        ((∃ a, r = Except.ok a ∧ store id (cnt + k) = FetchOutcome.ok a ∧
            evs = transEvs id k ++ [Event.fetch id (FetchOutcome.ok a)]) ∨
         (∃ m, r = Except.error m ∧ ¬(m = "NetworkError") ∧
            store id (cnt + k) = FetchOutcome.err m ∧
            evs = transEvs id k ++ [Event.fetch id (FetchOutcome.err m)])) := by
  intro fuel
  induction fuel with
  | zero =>
    intro cnt evs c r h
    simp [getAccountWithRetry] at h
  | succ fuel ih =>
    intro cnt evs c r h
    cases hs : store id cnt with
    | ok a =>
      rw [retry_unfold_ok store id cnt fuel a hs] at h
      simp only [Option.some.injEq, Prod.mk.injEq] at h
      obtain ⟨h1, h2, h3⟩ := h
      exact ⟨0, by omega, Or.inl ⟨a, h3.symm, by simpa using hs,
        by simp [transEvs, h1.symm]⟩⟩
    | err m =>
      by_cases hm : m = "NetworkError"
      · subst hm
        rw [retry_unfold_nw store id cnt fuel hs] at h
        cases hr : getAccountWithRetry store id (cnt + 1) fuel with
        | none => rw [hr] at h; exact absurd h (by simp)
        | some x =>
          obtain ⟨evs0, c0, r0⟩ := x
          rw [hr] at h
          simp only [Option.some.injEq, Prod.mk.injEq] at h
          obtain ⟨h1, h2, h3⟩ := h
          obtain ⟨k, hk, hcase⟩ := ih (cnt + 1) evs0 c0 r0 hr
          have harith : cnt + 1 + k = cnt + (k + 1) := by omega
          refine ⟨k + 1, by omega, ?_⟩
          cases hcase with
          | inl hok =>
            obtain ⟨a, ha1, ha2, ha3⟩ := hok
            exact Or.inl ⟨a, h3 ▸ ha1, harith ▸ ha2,
              by simp [h1.symm, ha3, transEvs, List.replicate_succ]⟩
          | inr herr =>
            obtain ⟨m2, hm1, hm2, hm3, hm4⟩ := herr
            exact Or.inr ⟨m2, h3 ▸ hm1, hm2, harith ▸ hm3,
              by simp [h1.symm, hm4, transEvs, List.replicate_succ]⟩
      · rw [retry_unfold_perm store id cnt fuel m hs hm] at h
        simp only [Option.some.injEq, Prod.mk.injEq] at h
        obtain ⟨h1, h2, h3⟩ := h
        exact ⟨0, by omega, Or.inr ⟨m, h3.symm, hm, by simpa using hs,
          by simp [transEvs, h1.symm]⟩⟩

theorem lastO_append (ys : List Event) :
    ∀ (xs : List Event) (p : Option Event),
      lastO p (xs ++ ys) = lastO (lastO p xs) ys := by
  intro xs
  induction xs with
  | nil => intro p; rfl
  | cons e rest ih =>
    intro p
    show lastO (some e) (rest ++ ys) = lastO (lastO (some e) rest) ys
    exact ih (some e)

theorem lastO_concat (xs : List Event) (p : Option Event) (e : Event) :
    lastO p (xs ++ [e]) = some e := by
  rw [lastO_append]
  rfl

theorem lastO_irrel (xs : List Event) (p q : Option Event) (h : xs ≠ []) :
    lastO p xs = lastO q xs := by
  cases xs with
  | nil => exact absurd rfl h
  | cons e rest => rfl

theorem laf_append (ys : List Event) :
    ∀ (xs : List Event) (p : Option Event),
      logsAfterFetch p (xs ++ ys)
        = (logsAfterFetch p xs && logsAfterFetch (lastO p xs) ys) := by
  intro xs
  induction xs with
  | nil => intro p; rfl
  | cons e rest ih =>
    intro p
    show (okBefore p e && logsAfterFetch (some e) (rest ++ ys))
        = ((okBefore p e && logsAfterFetch (some e) rest)
            && logsAfterFetch (lastO (some e) rest) ys)
    rw [ih (some e), Bool.and_assoc]

theorem noLog_laf (xs : List Event) (hx : ∀ e ∈ xs, isLogEv e = false) :
    ∀ (p : Option Event), logsAfterFetch p xs = true := by
  induction xs with
  | nil => intro p; rfl
  | cons e rest ih =>
    intro p
    have he : isLogEv e = false := hx e (List.mem_cons_self e rest)
    have hb : okBefore p e = true := by
      cases e with
      | fetch i o => rfl
      | log x y => simp [isLogEv] at he
      | accum i b => rfl
    rw [logsAfterFetch, hb, Bool.true_and]
    exact ih (fun e2 h2 => hx e2 (List.mem_cons_of_mem e h2)) (some e)

theorem noLog_retry_evs (id : String) (k : Nat) (o : FetchOutcome) :
    ∀ e ∈ transEvs id k ++ [Event.fetch id o], isLogEv e = false := by
  intro e he
  rcases List.mem_append.mp he with h | h
  · rw [List.eq_of_mem_replicate h]; rfl
  · rw [List.mem_singleton.mp h]; rfl

theorem sumLoop_unfold_none (store : Store) (fuel : Nat) (counts : String → Nat)
    (sum : Int) (id : String) (rest : List String)
    (hr : getAccountWithRetry store id (counts id) fuel = none) :
    sumLoop store fuel counts sum (id :: rest) = none := by
  rw [sumLoop, hr]

theorem sumLoop_unfold_err (store : Store) (fuel : Nat) (counts : String → Nat)
    (sum : Int) (id : String) (rest : List String) (evs : List Event) (c : Nat)
    (m : String)
    (hr : getAccountWithRetry store id (counts id) fuel
      = some (evs, c, Except.error m)) :
    sumLoop store fuel counts sum (id :: rest) = some (evs, Except.error m) := by
  rw [sumLoop, hr]

theorem sumLoop_unfold_ok (store : Store) (fuel : Nat) (counts : String → Nat)
    (sum : Int) (id : String) (rest : List String) (evs : List Event) (c : Nat)
    (a : Account)
    (hr : getAccountWithRetry store id (counts id) fuel
      = some (evs, c, Except.ok a)) :
    sumLoop store fuel counts sum (id :: rest)
      = match sumLoop store fuel (bump counts id c)
          (if 0 < a.balance then sum + a.balance else sum) rest with
        | none => none
        | some (evs2, r) =>
            some ((evs ++ Event.log id masterId ::
              (if 0 < a.balance then [Event.accum id a.balance] else [])) ++ evs2,
              r) := by
  rw [sumLoop, hr]

theorem sumLoop_trace_props (store : Store) (fuel : Nat) :
    ∀ (ids : List String) (counts : String → Nat) (sum : Int)
      (tr : List Event) (res : Except String Int),
      sumLoop store fuel counts sum ids = some (tr, res) →
      (∀ p, logsAfterFetch p tr = true)
      ∧ (∀ m, res = Except.error m → ¬(m = "NetworkError") ∧
          ∃ f, lastO none tr = some (Event.fetch f (FetchOutcome.err m)))
      ∧ (∀ s, res = Except.ok s →
          ∀ f m, Event.fetch f (FetchOutcome.err m) ∈ tr → m = "NetworkError") := by
  intro ids
  induction ids with
  | nil =>
    intro counts sum tr res h
    rw [sumLoop] at h
    simp only [Option.some.injEq, Prod.mk.injEq] at h
    obtain ⟨h1, h2⟩ := h
    subst h1
    subst h2
    refine ⟨fun p => rfl, ?_, ?_⟩
    · intro m hm
      exact absurd hm (by simp)
    · intro s hs f m hmem
      exact absurd hmem (by simp)
  | cons id rest ih =>
    intro counts sum tr res h
    cases hr : getAccountWithRetry store id (counts id) fuel with
    | none =>
      rw [sumLoop_unfold_none store fuel counts sum id rest hr] at h
      exact absurd h (by simp)
    | some x =>
      obtain ⟨evs, c, r⟩ := x
      cases r with
      | error m =>
        rw [sumLoop_unfold_err store fuel counts sum id rest evs c m hr] at h
        simp only [Option.some.injEq, Prod.mk.injEq] at h
        obtain ⟨h1, h2⟩ := h
        subst h1
        subst h2
        obtain ⟨k, hk, hcase⟩ :=
          retry_shape store id fuel (counts id) evs c (Except.error m) hr
        cases hcase with
        | inl hok =>
          obtain ⟨a, ha, _⟩ := hok
          exact absurd ha (by simp)
        | inr herr =>
          obtain ⟨m2, hm1, hm2, hm3, hm4⟩ := herr
          have hmm : m = m2 := by injection hm1
          subst hmm
          subst hm4
          refine ⟨?_, ?_, ?_⟩
          · intro p
            exact noLog_laf _ (noLog_retry_evs id k (FetchOutcome.err m)) p
          · intro m3 hres
            have : m = m3 := by injection hres
            subst this
            exact ⟨hm2, id, lastO_concat _ none _⟩
          · intro s hs
            exact absurd hs (by simp)
      | ok a =>
        rw [sumLoop_unfold_ok store fuel counts sum id rest evs c a hr] at h
        cases hrec : sumLoop store fuel (bump counts id c)
            (if 0 < a.balance then sum + a.balance else sum) rest with
        | none =>
          rw [hrec] at h
          exact absurd h (by simp)
        | some y =>
          obtain ⟨evs2, r2⟩ := y
          rw [hrec] at h
          simp only [Option.some.injEq, Prod.mk.injEq] at h
          obtain ⟨h1, h2⟩ := h
          subst h1
          subst h2
          obtain ⟨klaf, kerr, kok⟩ := ih (bump counts id c)
            (if 0 < a.balance then sum + a.balance else sum) evs2 r2 hrec
          obtain ⟨k, hk, hcase⟩ :=
            retry_shape store id fuel (counts id) evs c (Except.ok a) hr
          cases hcase with
          | inr herr =>
            obtain ⟨m2, hm1, _⟩ := herr
            exact absurd hm1 (by simp)
          | inl hok =>
            obtain ⟨a2, ha1, ha2, ha3⟩ := hok
            have haa : a = a2 := by injection ha1
            subst haa
            subst ha3
            refine ⟨?_, ?_, ?_⟩
            · intro p
              rw [laf_append, laf_append]
              have hevs : logsAfterFetch p
                  (transEvs id k ++ [Event.fetch id (FetchOutcome.ok a)]) = true :=
                noLog_laf _ (noLog_retry_evs id k (FetchOutcome.ok a)) p
              have hlast : lastO p
                  (transEvs id k ++ [Event.fetch id (FetchOutcome.ok a)])
                  = some (Event.fetch id (FetchOutcome.ok a)) :=
                lastO_concat _ p _
              rw [hevs, hlast, Bool.true_and]
              have hlog : logsAfterFetch (some (Event.fetch id (FetchOutcome.ok a)))
                  (Event.log id masterId ::
                    (if 0 < a.balance then [Event.accum id a.balance] else []))
                  = true := by
                rw [logsAfterFetch]
                have hb : okBefore (some (Event.fetch id (FetchOutcome.ok a)))
                    (Event.log id masterId) = true := by
                  simp [okBefore]
                rw [hb, Bool.true_and]
                apply noLog_laf
                intro e he
                by_cases hbal : 0 < a.balance
                · rw [if_pos hbal] at he
                  rw [List.mem_singleton.mp he]
                  rfl
                · rw [if_neg hbal] at he
                  exact absurd he (by simp)
              rw [hlog, Bool.true_and]
              exact klaf _
            · intro m3 hres
              obtain ⟨hnm, f, hl⟩ := kerr m3 hres
              have hne : evs2 ≠ [] := by
                intro hemp
                rw [hemp] at hl
                exact absurd hl (by simp [lastO])
              refine ⟨hnm, f, ?_⟩
              rw [lastO_append, lastO_irrel evs2 _ none hne]
              exact hl
            · intro s hs f m hmem
              rcases List.mem_append.mp hmem with hstep | htail
              · rcases List.mem_append.mp hstep with hretry | hblock
                · rcases List.mem_append.mp hretry with htrans | hfin
                  · have := List.eq_of_mem_replicate htrans
                    simp only [Event.fetch.injEq, FetchOutcome.err.injEq] at this
                    exact this.2
                  · have := List.mem_singleton.mp hfin
                    injection this with hf ho
                    exact absurd ho (by simp)
                · exfalso
                  rcases List.mem_cons.mp hblock with hlg | hacc
                  · exact absurd hlg (by simp)
                  · by_cases hbal : 0 < a.balance
                    · rw [if_pos hbal] at hacc
                      exact absurd (List.mem_singleton.mp hacc) (by simp)
                    · rw [if_neg hbal] at hacc
                      exact absurd hacc (by simp)
              · exact kok s hs f m htail

/-- C3 (counterexample): the propagated error does not identify the
first permanently-failing id.  Two runs whose first permanent failure
happens at different ids — `a` in the first run, `b` in the second, as
the final fetch event of each trace shows — abort with the very same
error value `OtherError`, the store's original error, which carries no
account id. -/
theorem C3_cex_error_lacks_failing_id :
    sumAccounts (storeFailAt "a") ["a", "b"] 2
        = some ([Event.fetch "master" (FetchOutcome.ok (Account.mk "master" 1)),
            Event.log "master" "master", Event.accum "master" 1,
            Event.fetch "a" (FetchOutcome.err "OtherError")],
            Except.error "OtherError")
      ∧ sumAccounts (storeFailAt "b") ["a", "b"] 2
        = some ([Event.fetch "master" (FetchOutcome.ok (Account.mk "master" 1)),
            Event.log "master" "master", Event.accum "master" 1,
            Event.fetch "a" (FetchOutcome.ok (Account.mk "a" 1)),
            Event.log "a" "master", Event.accum "a" 1,
            Event.fetch "b" (FetchOutcome.err "OtherError")],
            Except.error "OtherError") :=
  ⟨rfl, rfl⟩

/-- C3 (amended): if the fetch of some id of the effective sequence
fails permanently, the whole `sumAccounts` call fails by propagating
that fetch's own error — the store's error message, which need not name
the failing id; the failing fetch is the last event of the trace, so no
partial sum is returned and no id after the failing one is fetched,
logged, or accumulated.  Conversely a run that returns a sum observed no
permanent failure: every failed fetch event in its trace is the
transient `NetworkError`. -/
theorem C3_permanent_failure_aborts (store : Store) (ids : List String)
    (fuel : Nat) (tr : List Event) (res : Except String Int)
    (h : sumAccounts store ids fuel = some (tr, res)) :
    (∀ m, res = Except.error m → ¬(m = "NetworkError") ∧
      ∃ f, lastO none tr = some (Event.fetch f (FetchOutcome.err m)))
    ∧ (∀ s, res = Except.ok s →
      ∀ f m, Event.fetch f (FetchOutcome.err m) ∈ tr → m = "NetworkError") := by
  obtain ⟨h1, h2, h3⟩ :=
    sumLoop_trace_props store fuel (masterId :: ids) (fun _ => 0) 0 tr res h
  exact ⟨h2, h3⟩

/-- Witness for C3 (amended) at the concrete failing run of
`storeFailAt "b"` on `['a','b']`. -/
theorem C3_permanent_failure_aborts_witness :
    (∀ m, (Except.error "OtherError" : Except String Int) = Except.error m →
      ¬(m = "NetworkError") ∧
      ∃ f, lastO none
          [Event.fetch "master" (FetchOutcome.ok (Account.mk "master" 1)),
           Event.log "master" "master", Event.accum "master" 1,
           Event.fetch "a" (FetchOutcome.ok (Account.mk "a" 1)),
           Event.log "a" "master", Event.accum "a" 1,
           Event.fetch "b" (FetchOutcome.err "OtherError")]
        = some (Event.fetch f (FetchOutcome.err m)))
    ∧ (∀ s, (Except.error "OtherError" : Except String Int) = Except.ok s →
      ∀ f m, Event.fetch f (FetchOutcome.err m) ∈
          [Event.fetch "master" (FetchOutcome.ok (Account.mk "master" 1)),
           Event.log "master" "master", Event.accum "master" 1,
           Event.fetch "a" (FetchOutcome.ok (Account.mk "a" 1)),
           Event.log "a" "master", Event.accum "a" 1,
           Event.fetch "b" (FetchOutcome.err "OtherError")]
        → m = "NetworkError") :=
  C3_permanent_failure_aborts (storeFailAt "b") ["a", "b"] 2
    [Event.fetch "master" (FetchOutcome.ok (Account.mk "master" 1)),
     Event.log "master" "master", Event.accum "master" 1,
     Event.fetch "a" (FetchOutcome.ok (Account.mk "a" 1)),
     Event.log "a" "master", Event.accum "a" 1,
     Event.fetch "b" (FetchOutcome.err "OtherError")]
    (Except.error "OtherError") rfl

/-- C5: in every run, a `logAccount` event for an id appears only
directly after a successful fetch event of that same id — never before
its fetch has succeeded — and when the run fails, the trace ends at the
permanently-failing fetch, so neither the failing id nor any id after
the failure point is logged. -/
theorem C5_log_strictly_after_fetch (store : Store) (ids : List String)
    (fuel : Nat) (tr : List Event) (res : Except String Int)
    (h : sumAccounts store ids fuel = some (tr, res)) :
    logsAfterFetch none tr = true
    ∧ (∀ m, res = Except.error m →
        ∃ f, lastO none tr = some (Event.fetch f (FetchOutcome.err m))) := by
  obtain ⟨h1, h2, _⟩ :=
    sumLoop_trace_props store fuel (masterId :: ids) (fun _ => 0) 0 tr res h
  exact ⟨h1 none, fun m hm => (h2 m hm).2⟩

/-- Witness for C5 at the concrete failing run of `storeFailAt "a"` on
`['a','b']`. -/
theorem C5_log_strictly_after_fetch_witness :
    logsAfterFetch none
        [Event.fetch "master" (FetchOutcome.ok (Account.mk "master" 1)),
         Event.log "master" "master", Event.accum "master" 1,
         Event.fetch "a" (FetchOutcome.err "OtherError")] = true
    ∧ (∀ m, (Except.error "OtherError" : Except String Int) = Except.error m →
        ∃ f, lastO none
            [Event.fetch "master" (FetchOutcome.ok (Account.mk "master" 1)),
             Event.log "master" "master", Event.accum "master" 1,
             Event.fetch "a" (FetchOutcome.err "OtherError")]
          = some (Event.fetch f (FetchOutcome.err m))) :=
  C5_log_strictly_after_fetch (storeFailAt "a") ["a", "b"] 2
    [Event.fetch "master" (FetchOutcome.ok (Account.mk "master" 1)),
     Event.log "master" "master", Event.accum "master" 1,
     Event.fetch "a" (FetchOutcome.err "OtherError")]
    (Except.error "OtherError") rfl

/-- C7: a fetch error is retried in place exactly when its message is
the marker `NetworkError` — the retry loop re-enters with the next call
— and every error with any other message propagates at once as the
result of `getAccountWithRetry`; moreover a transient error never
escapes: the error of a failed `sumAccounts` run is never
`NetworkError`, so nothing is silently swallowed. -/
theorem C7_transient_iff_network_error :
    (∀ (store : Store) (id : String) (cnt fuel : Nat) (m : String),
      store id cnt = FetchOutcome.err m →
        (m = "NetworkError" →
          getAccountWithRetry store id cnt (fuel + 1)
            = match getAccountWithRetry store id (cnt + 1) fuel with
              | none => none
              | some (evs, c, r) =>
                  some (Event.fetch id (FetchOutcome.err m) :: evs, c, r))
        ∧ (¬(m = "NetworkError") →
          getAccountWithRetry store id cnt (fuel + 1)
            = some ([Event.fetch id (FetchOutcome.err m)], cnt + 1,
                Except.error m)))
    ∧ (∀ (store : Store) (ids : List String) (fuel : Nat) (tr : List Event)
        (m : String),
        sumAccounts store ids fuel = some (tr, Except.error m) →
          ¬(m = "NetworkError")) := by
  constructor
  · intro store id cnt fuel m hs
    constructor
    · intro hm
      subst hm
      exact retry_unfold_nw store id cnt fuel hs
    · intro hm
      exact retry_unfold_perm store id cnt fuel m hs hm
  · intro store ids fuel tr m h
    obtain ⟨_, h2, _⟩ := sumLoop_trace_props store fuel (masterId :: ids)
      (fun _ => 0) 0 tr (Except.error m) h
    exact (h2 m rfl).1

/-- Witness for C7: a permanent `OtherError` propagates out of the retry
loop at once. -/
theorem C7_transient_iff_network_error_witness :
    getAccountWithRetry (fun _ _ => FetchOutcome.err "OtherError") "x" 0 4
      = some ([Event.fetch "x" (FetchOutcome.err "OtherError")], 1,
          Except.error "OtherError") :=
  (C7_transient_iff_network_error.1 (fun _ _ => FetchOutcome.err "OtherError")
    "x" 0 3 "OtherError" rfl).2 (by decide)

theorem retry_fault (bal : String → Int) (fid : String) (k : Nat)
    (id : String) (cnt fuel : Nat) :
    getAccountWithRetry (faultStore bal fid k) id cnt (fuel + 2)
      = some ((if id = fid ∧ cnt = k
            then [Event.fetch id (FetchOutcome.err "NetworkError"),
              Event.fetch id (FetchOutcome.ok (Account.mk id (bal id)))]
            else [Event.fetch id (FetchOutcome.ok (Account.mk id (bal id)))]),
          (if id = fid ∧ cnt = k then cnt + 2 else cnt + 1),
          Except.ok (Account.mk id (bal id))) := by
  by_cases h : id = fid ∧ cnt = k
  · have hs : faultStore bal fid k id cnt = FetchOutcome.err "NetworkError" := by
      simp [faultStore, h.1, h.2]
    have hs2 : faultStore bal fid k id (cnt + 1)
        = FetchOutcome.ok (Account.mk id (bal id)) := by
      have : ¬(id = fid ∧ cnt + 1 = k) := by
        intro hcon
        exact absurd h.2 (by omega)
      simp [faultStore, this]
    rw [retry_unfold_nw (faultStore bal fid k) id cnt (fuel + 1) hs,
      retry_unfold_ok (faultStore bal fid k) id (cnt + 1) fuel _ hs2]
    simp [h.1, h.2]
  · have hs : faultStore bal fid k id cnt
        = FetchOutcome.ok (Account.mk id (bal id)) := by
      simp [faultStore, h]
    rw [retry_unfold_ok (faultStore bal fid k) id cnt (fuel + 1) _ hs]
    simp [h]

theorem sumLoop_fault (bal : String → Int) (fid : String) (k : Nat)
    (fuel : Nat) :
    ∀ (ids : List String) (counts : String → Nat) (sum : Int),
      ∃ tr, sumLoop (faultStore bal fid k) (fuel + 2) counts sum ids
          = some (tr, Except.ok (sum + posSum (ids.map bal)))
        ∧ tr.filter isLogEv = ids.map (fun id => Event.log id masterId) := by
  intro ids
  induction ids with
  | nil =>
    intro counts sum
    refine ⟨[], by simp [sumLoop, posSum], rfl⟩
  | cons id rest ih =>
    intro counts sum
    have hr := retry_fault bal fid k id (counts id) fuel
    obtain ⟨tr2, hrec, hlog⟩ := ih
      (bump counts id (if id = fid ∧ counts id = k then counts id + 2
        else counts id + 1))
      (if 0 < bal id then sum + bal id else sum)
    refine ⟨((if id = fid ∧ counts id = k
        then [Event.fetch id (FetchOutcome.err "NetworkError"),
          Event.fetch id (FetchOutcome.ok (Account.mk id (bal id)))]
        else [Event.fetch id (FetchOutcome.ok (Account.mk id (bal id)))]) ++
        Event.log id masterId ::
          (if 0 < bal id then [Event.accum id (bal id)] else [])) ++ tr2,
      ?_, ?_⟩
    · rw [sumLoop_unfold_ok (faultStore bal fid k) (fuel + 2) counts sum id rest
        _ _ _ hr]
      dsimp only
      rw [hrec]
      simp only [Option.some.injEq, Prod.mk.injEq, Except.ok.injEq]
      refine ⟨trivial, ?_⟩
      rw [List.map_cons, posSum_cons]
      by_cases hb : 0 < bal id
      · rw [if_pos hb, if_pos hb]
        omega
      · rw [if_neg hb, if_neg hb]
        omega
    · rw [List.filter_append, List.filter_append, hlog]
      have h1 : (if id = fid ∧ counts id = k
          then [Event.fetch id (FetchOutcome.err "NetworkError"),
            Event.fetch id (FetchOutcome.ok (Account.mk id (bal id)))]
          else [Event.fetch id
            (FetchOutcome.ok (Account.mk id (bal id)))]).filter isLogEv
          = [] := by
        by_cases hc : id = fid ∧ counts id = k
        · rw [if_pos hc]; rfl
        · rw [if_neg hc]; rfl
      have h2 : (Event.log id masterId ::
          (if 0 < bal id then [Event.accum id (bal id)] else [])).filter isLogEv
          = [Event.log id masterId] := by
        by_cases hb : 0 < bal id
        · rw [if_pos hb]; rfl
        · rw [if_neg hb]; rfl
      rw [h1, h2]
      rfl

/-- C6: a single transient failure on any one fetch (any id, any call
position), followed by success, yields the same result and the same
logged-access sequence as the run with no failure at all; only the
retried, successful fetch result is counted toward the sum. -/
theorem C6_transient_retry_invisible (bal : String → Int)
    (ids : List String) (fid : String) (k : Nat) (fuel : Nat) :
    sumResult (faultStore bal fid k) ids (fuel + 2)
        = sumResult (okStore bal) ids (fuel + 2)
      ∧ logTrace (faultStore bal fid k) ids (fuel + 2)
        = logTrace (okStore bal) ids (fuel + 2) := by
  obtain ⟨tr, hrun, hlog⟩ :=
    sumLoop_fault bal fid k fuel (masterId :: ids) (fun _ => 0) 0
  have hok := sumLoop_okStore bal (fuel + 1) (masterId :: ids) (fun _ => 0) 0
  constructor
  · rw [sumResult, sumResult, sumAccounts, sumAccounts, hrun, hok]
    rfl
  · rw [logTrace, logTrace, sumAccounts, sumAccounts, hrun, hok]
    simp [hlog, logs_flatMap, filter_blockOk]

theorem nw_retry_none : ∀ (fuel : Nat) (id : String) (cnt : Nat),
    getAccountWithRetry nwStore id cnt fuel = none := by
  intro fuel
  induction fuel with
  | zero => intro id cnt; rfl
  | succ fuel ih =>
    intro id cnt
    rw [retry_unfold_nw nwStore id cnt fuel rfl, ih id (cnt + 1)]

theorem nw_sum_none (ids : List String) (fuel : Nat) :
    sumAccounts nwStore ids fuel = none := by
  rw [sumAccounts]
  exact sumLoop_unfold_none nwStore fuel (fun _ => 0) 0 masterId ids
    (nw_retry_none fuel masterId 0)

theorem retry_succeeds (store : Store) (id : String) (a : Account) :
    ∀ (k cnt : Nat),
      (∀ j, j < k → store id (cnt + j) = FetchOutcome.err "NetworkError") →
      store id (cnt + k) = FetchOutcome.ok a →
      getAccountWithRetry store id cnt (k + 1)
        = some (transEvs id k ++ [Event.fetch id (FetchOutcome.ok a)],
            cnt + k + 1, Except.ok a) := by
  intro k
  induction k with
  | zero =>
    intro cnt htrans hok
    rw [retry_unfold_ok store id cnt 0 a (by simpa using hok)]
    simp [transEvs]
  | succ k ih =>
    intro cnt htrans hok
    have h0 : store id cnt = FetchOutcome.err "NetworkError" := by
      simpa using htrans 0 (by omega)
    rw [retry_unfold_nw store id cnt (k + 1) h0]
    have hrec := ih (cnt + 1)
      (fun j hj => by
        have := htrans (j + 1) (by omega)
        have harg : cnt + (j + 1) = cnt + 1 + j := by omega
        rw [harg] at this
        exact this)
      (by
        have harg : cnt + (k + 1) = cnt + 1 + k := by omega
        rw [harg] at hok
        exact hok)
    rw [hrec]
    have harith : cnt + 1 + k + 1 = cnt + (k + 1) + 1 := by omega
    rw [harith]
    simp only [transEvs, List.replicate_succ, List.cons_append]

theorem retry_fails (store : Store) (id : String) (m : String)
    (hm : ¬(m = "NetworkError")) :
    ∀ (k cnt : Nat),
      (∀ j, j < k → store id (cnt + j) = FetchOutcome.err "NetworkError") →
      store id (cnt + k) = FetchOutcome.err m →
      getAccountWithRetry store id cnt (k + 1)
        = some (transEvs id k ++ [Event.fetch id (FetchOutcome.err m)],
            cnt + k + 1, Except.error m) := by
  intro k
  induction k with
  | zero =>
    intro cnt htrans herr
    rw [retry_unfold_perm store id cnt 0 m (by simpa using herr) hm]
    simp [transEvs]
  | succ k ih =>
    intro cnt htrans herr
    have h0 : store id cnt = FetchOutcome.err "NetworkError" := by
      simpa using htrans 0 (by omega)
    rw [retry_unfold_nw store id cnt (k + 1) h0]
    have hrec := ih (cnt + 1)
      (fun j hj => by
        have := htrans (j + 1) (by omega)
        have harg : cnt + (j + 1) = cnt + 1 + j := by omega
        rw [harg] at this
        exact this)
      (by
        have harg : cnt + (k + 1) = cnt + 1 + k := by omega
        rw [harg] at herr
        exact herr)
    rw [hrec]
    have harith : cnt + 1 + k + 1 = cnt + (k + 1) + 1 := by omega
    rw [harith]
    simp only [transEvs, List.replicate_succ, List.cons_append]

theorem retry_mono (store : Store) (id : String) :
    ∀ (fuel fuel2 cnt : Nat) (x : List Event × Nat × Except String Account),
      fuel ≤ fuel2 →
      getAccountWithRetry store id cnt fuel = some x →
      getAccountWithRetry store id cnt fuel2 = some x := by
  intro fuel
  induction fuel with
  | zero =>
    intro fuel2 cnt x hle h
    exact absurd h (by simp [getAccountWithRetry])
  | succ fuel ih =>
    intro fuel2 cnt x hle h
    obtain ⟨fuel2p, rfl⟩ : ∃ f2, fuel2 = f2 + 1 := ⟨fuel2 - 1, by omega⟩
    cases hs : store id cnt with
    | ok a =>
      rw [retry_unfold_ok store id cnt fuel a hs] at h
      rw [retry_unfold_ok store id cnt fuel2p a hs]
      exact h
    | err m =>
      by_cases hmm : m = "NetworkError"
      · subst hmm
        rw [retry_unfold_nw store id cnt fuel hs] at h
        rw [retry_unfold_nw store id cnt fuel2p hs]
        cases hr : getAccountWithRetry store id (cnt + 1) fuel with
        | none => rw [hr] at h; exact absurd h (by simp)
        | some y =>
          rw [hr] at h
          rw [ih fuel2p (cnt + 1) y (by omega) hr]
          exact h
      · rw [retry_unfold_perm store id cnt fuel m hs hmm] at h
        rw [retry_unfold_perm store id cnt fuel2p m hs hmm]
        exact h

theorem sumLoop_mono (store : Store) :
    ∀ (ids : List String) (fuel fuel2 : Nat) (counts : String → Nat)
      (sum : Int) (x : List Event × Except String Int),
      fuel ≤ fuel2 →
      sumLoop store fuel counts sum ids = some x →
      sumLoop store fuel2 counts sum ids = some x := by
  intro ids
  induction ids with
  | nil =>
    intro fuel fuel2 counts sum x hle h
    rw [sumLoop] at h
    rw [sumLoop]
    exact h
  | cons id rest ih =>
    intro fuel fuel2 counts sum x hle h
    cases hr : getAccountWithRetry store id (counts id) fuel with
    | none =>
      rw [sumLoop_unfold_none store fuel counts sum id rest hr] at h
      exact absurd h (by simp)
    | some y =>
      obtain ⟨evs, c, r⟩ := y
      have hr2 := retry_mono store id fuel fuel2 (counts id) (evs, c, r) hle hr
      cases r with
      | error m =>
        rw [sumLoop_unfold_err store fuel counts sum id rest evs c m hr] at h
        rw [sumLoop_unfold_err store fuel2 counts sum id rest evs c m hr2]
        exact h
      | ok a =>
        rw [sumLoop_unfold_ok store fuel counts sum id rest evs c a hr] at h
        rw [sumLoop_unfold_ok store fuel2 counts sum id rest evs c a hr2]
        cases hrec : sumLoop store fuel (bump counts id c)
            (if 0 < a.balance then sum + a.balance else sum) rest with
        | none => rw [hrec] at h; exact absurd h (by simp)
        | some z =>
          rw [hrec] at h
          rw [ih fuel fuel2 (bump counts id c) _ z hle hrec]
          exact h

theorem isTransient_eq (o : FetchOutcome) (h : isTransient o = true) :
    o = FetchOutcome.err "NetworkError" := by
  cases o with
  | ok a => simp [isTransient] at h
  | err m =>
    simp [isTransient] at h
    rw [h]

theorem retry_term (store : Store) (id : String) (cnt : Nat)
    (hres : ∃ k, isTransient (store id (cnt + k)) = false) :
    ∃ fuel x, getAccountWithRetry store id cnt fuel = some x := by
  have hk0 : isTransient (store id (cnt + Nat.find hres)) = false :=
    Nat.find_spec hres
  have hmin : ∀ j, j < Nat.find hres →
      store id (cnt + j) = FetchOutcome.err "NetworkError" := by
    intro j hj
    have hne := Nat.find_min hres hj
    have htrue : isTransient (store id (cnt + j)) = true := by
      cases hb : isTransient (store id (cnt + j)) with
      | false => exact absurd hb hne
      | true => rfl
    exact isTransient_eq _ htrue
  cases ho : store id (cnt + Nat.find hres) with
  | ok a =>
    exact ⟨Nat.find hres + 1, _,
      retry_succeeds store id a (Nat.find hres) cnt hmin ho⟩
  | err m =>
    have hm : ¬(m = "NetworkError") := by
      intro hmm
      subst hmm
      rw [ho] at hk0
      simp [isTransient] at hk0
    exact ⟨Nat.find hres + 1, _,
      retry_fails store id m hm (Nat.find hres) cnt hmin ho⟩

theorem sumLoop_term (store : Store)
    (hres : ∀ (id : String) (c : Nat),
      ∃ k, isTransient (store id (c + k)) = false) :
    ∀ (ids : List String) (counts : String → Nat) (sum : Int),
      ∃ fuel x, sumLoop store fuel counts sum ids = some x := by
  intro ids
  induction ids with
  | nil =>
    intro counts sum
    exact ⟨0, ([], Except.ok sum), rfl⟩
  | cons id rest ih =>
    intro counts sum
    obtain ⟨f1, ⟨evs, c, r⟩, h1⟩ :=
      retry_term store id (counts id) (hres id (counts id))
    cases r with
    | error m =>
      exact ⟨f1, (evs, Except.error m),
        sumLoop_unfold_err store f1 counts sum id rest evs c m h1⟩
    | ok a =>
      obtain ⟨f2, ⟨evs2, r2⟩, h2⟩ := ih (bump counts id c)
        (if 0 < a.balance then sum + a.balance else sum)
      refine ⟨max f1 f2, ((evs ++ Event.log id masterId ::
          (if 0 < a.balance then [Event.accum id a.balance] else [])) ++ evs2,
        r2), ?_⟩
      have h1m := retry_mono store id f1 (max f1 f2) (counts id)
        (evs, c, Except.ok a) (Nat.le_max_left f1 f2) h1
      have h2m := sumLoop_mono store rest f2 (max f1 f2) (bump counts id c)
        (if 0 < a.balance then sum + a.balance else sum) (evs2, r2)
        (Nat.le_max_right f1 f2) h2
      rw [sumLoop_unfold_ok store (max f1 f2) counts sum id rest evs c a h1m,
        h2m]

/-- C8: the retry of a transient failure has no retry-count cap.  Under
an everlasting transient fault the retry loop never exits (it is `none`
for every fuel, both at the level of one fetch and of a whole
`sumAccounts` call); for every `k`, a fetch that fails transiently `k`
times in a row and then succeeds still returns the account; and
whenever every fetch eventually resolves (succeeds or fails permanently
after finitely many consecutive transient failures) the whole
`sumAccounts` call terminates with some fuel. -/
theorem C8_unbounded_retry_termination :
    (∀ (id : String) (cnt fuel : Nat),
      getAccountWithRetry nwStore id cnt fuel = none)
    ∧ (∀ (ids : List String) (fuel : Nat), sumAccounts nwStore ids fuel = none)
    ∧ (∀ (a : Account) (id : String) (k : Nat),
      getAccountWithRetry
          (fun _ n => if n < k then FetchOutcome.err "NetworkError"
            else FetchOutcome.ok a) id 0 (k + 1)
        = some (transEvs id k ++ [Event.fetch id (FetchOutcome.ok a)], k + 1,
            Except.ok a))
    ∧ (∀ (store : Store),
      (∀ (id : String) (c : Nat), ∃ k, isTransient (store id (c + k)) = false) →
      ∀ (ids : List String), ∃ fuel x, sumAccounts store ids fuel = some x) := by
  refine ⟨?_, ?_, ?_, ?_⟩
  · intro id cnt fuel
    exact nw_retry_none fuel id cnt
  · intro ids fuel
    exact nw_sum_none ids fuel
  · intro a id k
    have h := retry_succeeds
      (fun _ n => if n < k then FetchOutcome.err "NetworkError"
        else FetchOutcome.ok a) id a k 0
      (fun j hj => by simp [Nat.zero_add, hj])
      (by simp [Nat.zero_add])
    simpa using h
  · intro store hres ids
    exact sumLoop_term store hres (masterId :: ids) (fun _ => 0) 0

/-- Witness for C8: on a store where every call succeeds, `sumAccounts`
terminates with some fuel. -/
theorem C8_unbounded_retry_termination_witness :
    ∃ fuel x, sumAccounts (okStore balDemo) ["a"] fuel = some x :=
  C8_unbounded_retry_termination.2.2.2 (okStore balDemo)
    (fun _ _ => ⟨0, rfl⟩) ["a"]

theorem plain_unfold_err (store : Store) (counts : String → Nat) (sum : Int)
    (id : String) (rest : List String) (m : String)
    (hs : store id (counts id) = FetchOutcome.err m) :
    sumAccountsPlainLoop store counts sum (id :: rest)
      = ([Event.fetch id (FetchOutcome.err m)], Except.error m) := by
  rw [sumAccountsPlainLoop, hs]

theorem plain_unfold_ok (store : Store) (counts : String → Nat) (sum : Int)
    (id : String) (rest : List String) (a : Account)
    (hs : store id (counts id) = FetchOutcome.ok a) :
    sumAccountsPlainLoop store counts sum (id :: rest)
      = (Event.fetch id (FetchOutcome.ok a) ::
          (sumAccountsPlainLoop store (bump counts id (counts id + 1))
            (sum + a.balance) rest).1,
        (sumAccountsPlainLoop store (bump counts id (counts id + 1))
          (sum + a.balance) rest).2) := by
  rw [sumAccountsPlainLoop, hs]

theorem plainLoop_okStore (bal : String → Int) :
    ∀ (ids : List String) (counts : String → Nat) (sum : Int),
      sumAccountsPlainLoop (okStore bal) counts sum ids
        = (ids.map (fun id =>
            Event.fetch id (FetchOutcome.ok (Account.mk id (bal id)))),
          Except.ok (sum + (ids.map bal).sum)) := by
  intro ids
  induction ids with
  | nil =>
    intro counts sum
    simp [sumAccountsPlainLoop]
  | cons id rest ih =>
    intro counts sum
    rw [plain_unfold_ok (okStore bal) counts sum id rest
      (Account.mk id (bal id)) rfl, ih]
    dsimp only
    simp only [List.map_cons, List.sum_cons, Prod.mk.injEq]
    refine ⟨trivial, ?_⟩
    congr 1
    ring

theorem plainLoop_events (store : Store) :
    ∀ (ids : List String) (counts : String → Nat) (sum : Int) (e : Event),
      e ∈ (sumAccountsPlainLoop store counts sum ids).1 →
      ∃ i o, e = Event.fetch i o ∧ i ∈ ids := by
  intro ids
  induction ids with
  | nil =>
    intro counts sum e he
    simp [sumAccountsPlainLoop] at he
  | cons id rest ih =>
    intro counts sum e he
    cases hs : store id (counts id) with
    | err m =>
      rw [plain_unfold_err store counts sum id rest m hs] at he
      rw [List.mem_singleton.mp he]
      exact ⟨id, FetchOutcome.err m, rfl, List.mem_cons_self id rest⟩
    | ok a =>
      rw [plain_unfold_ok store counts sum id rest a hs] at he
      rcases List.mem_cons.mp he with hhd | htl
      · rw [hhd]
        exact ⟨id, FetchOutcome.ok a, rfl, List.mem_cons_self id rest⟩
      · obtain ⟨i, o, hio, hmem⟩ :=
          ih (bump counts id (counts id + 1)) (sum + a.balance) e htl
        exact ⟨i, o, hio, List.mem_cons_of_mem id hmem⟩

/-- C10: the `sumAccounts` of the first revision, the one in the named
source file `src/impl/AccountOperationImpl.ts`, is a plain fold: when
every store call returns, it returns the unconditional sum of the
balances of exactly the given ids (zero and negative balances included),
its trace consists of exactly one fetch event per given id (so it
fetches no extra `master` account and never invokes the logger), and a
store error — even a transient `NetworkError` — propagates at once, with
no retry. -/
theorem C10_plain_impl_is_plain_fold :
    (∀ (bal : String → Int) (ids : List String),
      sumAccountsPlain (okStore bal) ids
        = (ids.map (fun id =>
            Event.fetch id (FetchOutcome.ok (Account.mk id (bal id)))),
          Except.ok ((ids.map bal).sum)))
    ∧ (∀ (store : Store) (id m : String) (rest : List String),
      store id 0 = FetchOutcome.err m →
      sumAccountsPlain store (id :: rest)
        = ([Event.fetch id (FetchOutcome.err m)], Except.error m))
    ∧ (∀ (store : Store) (ids : List String) (e : Event),
      e ∈ (sumAccountsPlain store ids).1 →
      ∃ i o, e = Event.fetch i o ∧ i ∈ ids) := by
  refine ⟨?_, ?_, ?_⟩
  · intro bal ids
    rw [sumAccountsPlain, plainLoop_okStore]
    simp
  · intro store id m rest hs
    exact plain_unfold_err store (fun _ => 0) 0 id rest m hs
  · intro store ids e he
    exact plainLoop_events store ids (fun _ => 0) 0 e he

/-- Witness for C10: in the first revision a `NetworkError` is not
retried but propagates immediately. -/
theorem C10_plain_impl_is_plain_fold_witness :
    sumAccountsPlain nwStore ["a"]
      = ([Event.fetch "a" (FetchOutcome.err "NetworkError")],
        Except.error "NetworkError") :=
  C10_plain_impl_is_plain_fold.2.1 nwStore "a" "NetworkError" [] rfl
